import Mathlib

/-!
Shallow embedding of the orchestration core of LapisMirror (`lapis.py`).

Python dictionaries exchanged between the orchestrator and its plugins are
modelled as structures whose `Option` fields record key presence; Python
truthiness of such a dictionary (non-emptiness) is a derived boolean.
A plugin method invocation either raises (`Except.error ()`) or returns a
value; a plugin that lacks a method is `none`.  Side effects (invoking a
plugin capability, posting the reply, stickying, deleting an export) are
made explicit as an ordered event trace.  Network requests and plugin
bodies are the fallible operations of the model; local attribute reads are
pure data.
-/

namespace LapisMirror

/-! ## Records exchanged with plugins (`lapis.py` docstring, lines 53-66) -/

/-- The `importer_display` sub-dictionary: optional `header` and `footer`. -/
structure DisplayInfo where
  header : Option String
  footer : Option String
  deriving Repr, DecidableEq

/-- An import-info dictionary.  `urls` models the `import_urls` key
(`none` = key absent), `displayInfo` the `importer_display` key, and
`extraKeys` whether any other key (`author`, `source`, ...) is present.
A Python value that is falsy (`None` or `{}`) is the record with every
field absent. -/
structure ImportRecord where
  urls : Option (List String)
  displayInfo : Option DisplayInfo
  extraKeys : Bool
  deriving Repr, DecidableEq

/-- Python truthiness of an import-info dictionary: at least one key. -/
def ImportRecord.truthy (r : ImportRecord) : Bool :=
  r.urls.isSome || r.displayInfo.isSome || r.extraKeys

/-- An export-info dictionary: `exporter` models the `exporter` key,
`linkDisplay` the `link_display` key, `hasDeleteInfo` the presence of the
`delete_info` key, `extraKeys` any further key. -/
structure ExportRecord where
  exporter : Option String
  linkDisplay : Option String
  hasDeleteInfo : Bool
  extraKeys : Bool
  deriving Repr, DecidableEq

/-- Python truthiness of an export-info dictionary: at least one key. -/
def ExportRecord.truthy (r : ExportRecord) : Bool :=
  r.exporter.isSome || r.linkDisplay.isSome || r.hasDeleteInfo || r.extraKeys

/-! ## The plugin registry fan-out (`call_plugin_function`, lines 140-174)

One run of `call_plugin_function` sees, for each registered plugin, either
no method of the requested name (`none`), or a method whose invocation
raises (`some (.error ())`) or returns a value (`some (.ok v)`).  The
source appends `import_data` to `returns` only when it is truthy, and a
raised exception is caught and logged so that iteration continues.  The
second component of the result records the indices of the plugins whose
method was actually invoked, in iteration order. -/

def call_plugin_function_from {α : Type} (truthy : α → Bool) :
    Nat → List (Option (Except Unit α)) → List α × List Nat
  | _, [] => ([], [])
  | i, c :: cs =>
    let rest := call_plugin_function_from truthy (i + 1) cs
    match c with
    | none => rest
    | some (Except.error _) => (rest.1, i :: rest.2)
    | some (Except.ok v) =>
      if truthy v then (v :: rest.1, i :: rest.2) else (rest.1, i :: rest.2)

/-- Model of `LapisLazuli.call_plugin_function`: fan a capability out over the
registered plugins, collecting the truthy results in order and isolating
per-plugin exceptions. -/
def call_plugin_function {α : Type} (truthy : α → Bool)
    (calls : List (Option (Except Unit α))) : List α × List Nat :=
  call_plugin_function_from truthy 0 calls

/-! ## Plugins and the per-post pipeline (`process_submission`, lines 265-342) -/

/-- One registered plugin, as seen by one `process_submission` run: its class
name, the behaviour of its `import_submission` method on this submission
(`none` = method absent), the behaviour of its `export_submission` method as
a function of the import record it receives, whether it has a
`delete_export` method, and whether that method raises on a given export
record. -/
structure Plugin where
  name : String
  importCall : Option (Except Unit ImportRecord)
  exportCall : Option (ImportRecord → Except Unit ExportRecord)
  hasDelete : Bool
  deleteRaises : ExportRecord → Bool

/-- The observable side effects of one `process_submission` run, in order. -/
inductive Event where
  | callImport (pluginIdx : Nat)
  | callExport (pluginIdx : Nat) (rec : ImportRecord)
  | makoRender (links : String) (info : Option ImportRecord)
  | publish (text : String)
  | sticky (ok : Bool)
  | callDelete (pluginIdx : Nat) (rec : ExportRecord)
  deriving Repr, DecidableEq

/-- An entry of the export table (line 293):
`(importer_display, export_results, import_info)`. -/
abbrev TableEntry := DisplayInfo × List ExportRecord × ImportRecord

/-- Line 279: `import_results = call_plugin_function('import_submission', ...)`. -/
def import_results (plugins : List Plugin) : List ImportRecord × List Nat :=
  call_plugin_function ImportRecord.truthy (plugins.map (·.importCall))

/-- The export fan-out loop (lines 284-293).  Iterates the truthy import
records; for each, fans `export_submission` out over the plugins, appends a
table entry only when some export result is truthy, and (mirroring the
Python loop variable `import_info` that survives the loop) threads the last
record seen.  Returns `(export_table, final import_info, events)`. -/
def export_loop (plugins : List Plugin) :
    Option ImportRecord → List ImportRecord →
    List TableEntry × Option ImportRecord × List Event
  | info, [] => ([], info, [])
  | _, r :: rs =>
    let fanout := call_plugin_function ExportRecord.truthy
      (plugins.map (fun p => p.exportCall.map (fun f => f r)))
    let evs := fanout.2.map (fun i => Event.callExport i r)
    let rest := export_loop plugins (some r) rs
    ((if fanout.1.any ExportRecord.truthy then
        (r.displayInfo.getD { header := none, footer := none }, fanout.1, r) :: rest.1
      else rest.1),
      rest.2.1, evs ++ rest.2.2)

/-- The `export_table` a run of `process_submission` builds. -/
def pipeline_table (plugins : List Plugin) : List TableEntry :=
  (export_loop plugins none ((import_results plugins).1.filter ImportRecord.truthy)).1

/-- The value of the loop variable `import_info` after the fan-out loop. -/
def pipeline_last_info (plugins : List Plugin) : Option ImportRecord :=
  (export_loop plugins none ((import_results plugins).1.filter ImportRecord.truthy)).2.1

/-- The export-invocation events of the fan-out loop. -/
def pipeline_export_events (plugins : List Plugin) : List Event :=
  (export_loop plugins none ((import_results plugins).1.filter ImportRecord.truthy)).2.2

/-- The import-invocation events of line 279. -/
def pipeline_import_events (plugins : List Plugin) : List Event :=
  (import_results plugins).2.map Event.callImport

/-- Lines 299-304: build `links_display_parts` by appending, per table
entry, its header, each export's `link_display`, and its footer (each via
`.get(key, '')`). -/
def links_display_parts : List TableEntry → List String
  | [] => []
  | e :: rest =>
    (e.1.header.getD "" :: e.2.1.map (fun er => er.linkDisplay.getD "") ++ [e.1.footer.getD ""])
      ++ links_display_parts rest

/-! ### Rollback (lines 328-338)

The source wraps the whole nested loop over the export table in one
`try/except`, so a raising `delete_export` aborts the remaining iterations;
the boolean returned alongside the events records whether such an abort
happened. -/

/-- Line 332-334: the plugins whose class name equals the record's
`exporter` value and which have a `delete_export` method, with their
registration indices. -/
def matched_delete_plugins (plugins : List Plugin) (rec : ExportRecord) :
    List (Nat × Plugin) :=
  plugins.enum.filter (fun ip => ip.2.name == rec.exporter.getD "" && ip.2.hasDelete)

/-- Lines 335-336: invoke `delete_export` on each matched plugin;
an exception aborts the whole rollback. -/
def run_matched_deletes (rec : ExportRecord) :
    List (Nat × Plugin) → List Event × Bool
  | [] => ([], false)
  | ip :: rest =>
    if ip.2.deleteRaises rec then ([Event.callDelete ip.1 rec], true)
    else
      let r := run_matched_deletes rec rest
      (Event.callDelete ip.1 rec :: r.1, r.2)

/-- Line 330-336: the inner loop over one entry's `export_results`. -/
def rollback_records (plugins : List Plugin) : List ExportRecord → List Event × Bool
  | [] => ([], false)
  | rec :: rest =>
    if rec.hasDeleteInfo && rec.exporter.isSome then
      let m := run_matched_deletes rec (matched_delete_plugins plugins rec)
      if m.2 then (m.1, true)
      else
        let r := rollback_records plugins rest
        (m.1 ++ r.1, r.2)
    else rollback_records plugins rest

/-- Line 329: the outer loop over the export table entries. -/
def rollback_table (plugins : List Plugin) : List TableEntry → List Event × Bool
  | [] => ([], false)
  | e :: rest =>
    let r := rollback_records plugins e.2.1
    if r.2 then (r.1, true)
    else
      let t := rollback_table plugins rest
      (r.1 ++ t.1, t.2)

/-- The delete attempts the rollback makes (the abort flag only feeds the
`except` logging at line 337-338). -/
def rollback (plugins : List Plugin) (table : List TableEntry) : List Event :=
  (rollback_table plugins table).1

/-! ### Sticky (lines 368-391) and publish -/

/-- The state `sticky_comment` reads: whether the session has the
`modposts` scope, and whether the `request_json` network call raises.  The
scope check, endpoint lookup and fullname read are local attribute reads,
modelled as pure. -/
structure StickyEnv where
  hasModpostsScope : Bool
  requestRaises : Bool
  deriving Repr, DecidableEq

/-- Model of `LapisLazuli.sticky_comment`: attempt the distinguish request; an
exception from it is caught and mapped to `False`, otherwise return
`True`.  The result is an `Except` so that "never raises" is a statement,
not a typing artifact. -/
def sticky_comment (env : StickyEnv) : Except Unit Bool :=
  match (if env.requestRaises then (Except.error () : Except Unit Unit) else Except.ok ()) with
  | Except.error _ => Except.ok false
  | Except.ok _ => Except.ok true

/-- The per-run configuration and external-world behaviour
`process_submission` depends on: whether the bot already commented on the
submission (line 274), the mako switch and the two template renderers
(lines 310-321), whether `submission.add_comment` raises on a given text
(line 323), and the sticky environment. -/
structure Config where
  alreadyCommented : Bool
  useMako : Bool
  makoFn : String → Option ImportRecord → String
  templateFn : String → String
  addCommentRaises : String → Bool
  stickyEnv : StickyEnv

/-- Lines 322-339: attempt the reply, sticky on success, roll back when
posting (or the sticky call, were it able to raise) throws. -/
def publish_attempt (cfg : Config) (plugins : List Plugin)
    (table : List TableEntry) (text : String) : List Event :=
  if cfg.addCommentRaises text then
    Event.publish text :: rollback plugins table
  else
    match sticky_comment cfg.stickyEnv with
    | Except.ok b => [Event.publish text, Event.sticky b]
    | Except.error _ => Event.publish text :: rollback plugins table

/-- Model of `LapisLazuli.process_submission` (lines 265-342), as the ordered trace
of its side effects. -/
def process_submission (cfg : Config) (plugins : List Plugin) : List Event :=
  if cfg.alreadyCommented then [] else
  let ev1 := pipeline_import_events plugins
  if !((import_results plugins).1.any ImportRecord.truthy) then ev1
  else
    let table := pipeline_table plugins
    let ev2 := pipeline_export_events plugins
    if !(table.any (fun _ => true)) then ev1 ++ ev2
    else
      let parts := links_display_parts table
      if parts.isEmpty then ev1 ++ ev2
      else
        let links := String.join parts
        if cfg.useMako then
          let info := pipeline_last_info plugins
          ev1 ++ ev2 ++ (Event.makoRender links info ::
            publish_attempt cfg plugins table (cfg.makoFn links info))
        else
          ev1 ++ ev2 ++ publish_attempt cfg plugins table (cfg.templateFn links)

/-! ## The scan loop (`scan_submissions`, lines 344-366)

`process_submission` is abstracted here by its outcome: it returns
normally, having attempted at most one publish (a raising publish is
handled inside it), or it raises (e.g. while reading the submission's
comments or rendering the template). -/

/-- The abstract outcome of one `process_submission` call. -/
inductive ProcOutcome where
  | ok (publishAttempted : Bool)
  | raises
  deriving Repr, DecidableEq

/-- A submission as the scan loop sees it: its identifier (a base36
string, cf. the `sub_id: str` annotation at line 191) and the outcome its
processing would have. -/
structure Submission where
  id : String
  outcome : ProcOutcome
  deriving Repr, DecidableEq

/-- Observable milestones of the scan loop. -/
inductive ScanEvent where
  | processed (id : String)
  | published (id : String)
  deriving Repr, DecidableEq

/-- A Python value that can stand on the right of a `%` format. -/
inductive PyVal where
  | pyStr (s : String)
  | pyInt (n : Int)
  deriving Repr, DecidableEq

/-- Python `fmt % v` for a format string ending in `%d`: the `%d`
conversion accepts a number and raises `TypeError` on a `str`.  (The exact
substituted text is irrelevant downstream; it only feeds `log.error`.) -/
def percent_d_format (fmt : String) (v : PyVal) : Except Unit String :=
  match v with
  | PyVal.pyInt n => Except.ok (fmt ++ toString n)
  | PyVal.pyStr _ => Except.error ()

/-- Result of running the scan loop: it either aborted with an uncaught
exception (the final `done` list is then discarded by the caller, shown
here for inspection) or ran out of modelled cycles. -/
inductive ScanResult where
  | aborted (done : List String) (trace : List ScanEvent)
  | finished (done : List String) (trace : List ScanEvent)
  deriving Repr, DecidableEq

def ScanResult.doneOf : ScanResult → List String
  | ScanResult.aborted d _ => d
  | ScanResult.finished d _ => d

def ScanResult.traceOf : ScanResult → List ScanEvent
  | ScanResult.aborted _ t => t
  | ScanResult.finished _ t => t

/-- Lines 354-362: one pass over the freshly fetched submissions.  A
submission not in `done` is processed; if processing raises, the handler
at line 359 formats `'Ran into error on submission %d' % submission.id`,
and only if that succeeds is the id appended and iteration continued —
when the format itself raises, the exception escapes the loop and
`done.append` never runs. -/
def scan_cycle (done : List String) (trace : List ScanEvent) :
    List Submission → ScanResult
  | [] => ScanResult.finished done trace
  | sub :: rest =>
    if sub.id ∈ done then
      scan_cycle (done ++ [sub.id]) trace rest
    else
      match sub.outcome with
      | ProcOutcome.ok pub =>
        scan_cycle (done ++ [sub.id])
          (trace ++ ScanEvent.processed sub.id ::
            (if pub then [ScanEvent.published sub.id] else [])) rest
      | ProcOutcome.raises =>
        match percent_d_format "Ran into error on submission " (PyVal.pyStr sub.id) with
        | Except.ok _ =>
          scan_cycle (done ++ [sub.id]) (trace ++ [ScanEvent.processed sub.id]) rest
        | Except.error _ =>
          ScanResult.aborted done (trace ++ [ScanEvent.processed sub.id])

/-- Model of `LapisLazuli.scan_submissions` (lines 344-366): the `while True` loop,
run over a finite list of modelled fetch results (the fuel); the `done`
list persists across cycles and an escaping exception ends the call. -/
def scan_submissions (done : List String) (trace : List ScanEvent) :
    List (List Submission) → ScanResult
  | [] => ScanResult.finished done trace
  | cycle :: cycles =>
    match scan_cycle done trace cycle with
    | ScanResult.aborted d t => ScanResult.aborted d t
    | ScanResult.finished d t => scan_submissions d t cycles

/-! ## The top-level runner (`main`, lines 443-460) -/

/-- The kind of exception an operation raised: `LapisError` (raised only
for configuration problems) or anything else. -/
inductive ExcKind where
  | lapisError
  | otherError
  deriving Repr, DecidableEq

/-- The external-world behaviour `main` depends on: whether `lapis.conf`
exists and parses, the outcomes of the successive `LapisLazuli(**config)`
constructions (`none` = success; construction includes `verify_options`,
`login` and plugin loading), and of the successive `scan_submissions`
calls (which never return normally: each modelled call eventually
raises).  Lists act as fuel: when exhausted, the loop is still running. -/
structure MainEnv where
  configFileExists : Bool
  configParses : Bool
  constructions : List (Option ExcKind)
  scans : List ExcKind

/-- How (whether) the process ends. -/
inductive MainResult where
  | terminatedUncaught (k : ExcKind)
  | terminatedBreak
  | running
  deriving Repr, DecidableEq

/-- Lines 450-460: the retry loop.  A `LapisError` from scanning breaks
out; any other exception is logged, slept on, and followed by
`lapis = LapisLazuli(**config)` — which executes inside the `except`
handler, so an exception it raises propagates uncaught. -/
def main_loop (constructions : List (Option ExcKind)) : List ExcKind → MainResult
  | [] => MainResult.running
  | ExcKind.lapisError :: _ => MainResult.terminatedBreak
  | ExcKind.otherError :: scans =>
    match constructions with
    | [] => MainResult.running
    | c :: cs =>
      match c with
      | some k => MainResult.terminatedUncaught k
      | none => main_loop cs scans

/-- Model of `main` (lines 443-460): a missing config file raises `LapisError`
uncaught; a config that fails to parse raises a `json` error uncaught; the
first construction happens outside any handler; then the retry loop. -/
def main (env : MainEnv) : MainResult :=
  if !env.configFileExists then MainResult.terminatedUncaught ExcKind.lapisError
  else if !env.configParses then MainResult.terminatedUncaught ExcKind.otherError
  else
    match env.constructions with
    | [] => MainResult.running
    | c :: cs =>
      match c with
      | some k => MainResult.terminatedUncaught k
      | none => main_loop cs env.scans

/-! ## Derived notions used by the theorems -/

/-- Is this event a `delete_export` invocation? -/
def Event.isDelete : Event → Bool
  | Event.callDelete _ _ => true
  | _ => false

/-- The delete attempts within a trace. -/
def delete_events (evs : List Event) : List Event := evs.filter Event.isDelete

/-- All export records of a table, in iteration order. -/
def table_records : List TableEntry → List ExportRecord
  | [] => []
  | e :: rest => e.2.1 ++ table_records rest

/-- The delete attempts rollback would make were every attempt reached:
for each record carrying both `delete_info` and `exporter`, one attempt
per matching plugin, in order. -/
def attempt_list (plugins : List Plugin) :
    List ExportRecord → List (Nat × Plugin × ExportRecord)
  | [] => []
  | rec :: rest =>
    (if rec.hasDeleteInfo && rec.exporter.isSome then
      (matched_delete_plugins plugins rec).map (fun ip => (ip.1, ip.2, rec))
     else []) ++ attempt_list plugins rest

/-- Does this attempt raise? -/
def attempt_raises (a : Nat × Plugin × ExportRecord) : Bool :=
  a.2.1.deleteRaises a.2.2

/-- The event an attempt produces. -/
def attempt_event (a : Nat × Plugin × ExportRecord) : Event :=
  Event.callDelete a.1 a.2.2

/-- Truncate an attempt list at (and including) its first raising attempt. -/
def cut_after_raise : List (Nat × Plugin × ExportRecord) → List (Nat × Plugin × ExportRecord)
  | [] => []
  | a :: rest => if attempt_raises a then [a] else a :: cut_after_raise rest

/-- Spec-side reading of §4.2 step 5 / claim C9: one table entry's block is
its header, the concatenation of its exports' `link_display` texts, and
its footer. -/
def entry_block (e : TableEntry) : String :=
  e.1.header.getD "" ++ String.join (e.2.1.map (fun er => er.linkDisplay.getD "")) ++ e.1.footer.getD ""

/-! ## Concrete inputs used by counterexamples and witnesses -/

/-- A truthy import record with one URL. -/
def impRec : ImportRecord := { urls := some ["u"], displayInfo := none, extraKeys := false }

/-- A truthy import record whose `import_urls` value is the empty list
(the key is present, so the dictionary is non-empty, hence truthy). -/
def impRecNoUrls : ImportRecord := { urls := some [], displayInfo := none, extraKeys := false }

/-- A second truthy import record, recognisable by its display info. -/
def impRecB : ImportRecord :=
  { urls := some ["v"], displayInfo := some { header := some "hB", footer := none }, extraKeys := false }

/-- Export record owned by plugin `E1`, deletable. -/
def recE1 : ExportRecord :=
  { exporter := some "E1", linkDisplay := some "l1", hasDeleteInfo := true, extraKeys := false }

/-- Export record owned by plugin `E2`, deletable. -/
def recE2 : ExportRecord :=
  { exporter := some "E2", linkDisplay := some "l2", hasDeleteInfo := true, extraKeys := false }

/-- A falsy export result (models a plugin returning `None`). -/
def recFalsy : ExportRecord :=
  { exporter := none, linkDisplay := none, hasDeleteInfo := false, extraKeys := false }

/-- An import plugin producing `impRec`. -/
def pI : Plugin :=
  { name := "I", importCall := some (Except.ok impRec), exportCall := none,
    hasDelete := false, deleteRaises := fun _ => false }

/-- An import plugin producing `impRecNoUrls`. -/
def pINoUrls : Plugin :=
  { name := "I0", importCall := some (Except.ok impRecNoUrls), exportCall := none,
    hasDelete := false, deleteRaises := fun _ => false }

/-- An import plugin producing `impRecB`. -/
def pIB : Plugin :=
  { name := "IB", importCall := some (Except.ok impRecB), exportCall := none,
    hasDelete := false, deleteRaises := fun _ => false }

/-- Export plugin `E1`; its `delete_export` raises. -/
def pE1 : Plugin :=
  { name := "E1", importCall := none, exportCall := some (fun _ => Except.ok recE1),
    hasDelete := true, deleteRaises := fun _ => true }

/-- Export plugin `E2`; its `delete_export` succeeds. -/
def pE2 : Plugin :=
  { name := "E2", importCall := none, exportCall := some (fun _ => Except.ok recE2),
    hasDelete := true, deleteRaises := fun _ => false }

/-- Export plugin that only handles `impRec` and returns a falsy result
on every other record. -/
def pESel : Plugin :=
  { name := "ES",
    importCall := none,
    exportCall := some (fun r => if r = impRec then Except.ok recE1 else Except.ok recFalsy),
    hasDelete := false, deleteRaises := fun _ => false }

/-- A configuration under which posting the reply raises. -/
def cfgFail : Config :=
  { alreadyCommented := false, useMako := false, makoFn := fun _ _ => "",
    templateFn := fun l => l, addCommentRaises := fun _ => true,
    stickyEnv := { hasModpostsScope := false, requestRaises := false } }

/-- A configuration under which posting succeeds. -/
def cfgOk : Config :=
  { alreadyCommented := false, useMako := false, makoFn := fun _ _ => "",
    templateFn := fun l => l, addCommentRaises := fun _ => false,
    stickyEnv := { hasModpostsScope := false, requestRaises := false } }

/-- A mako configuration under which posting succeeds. -/
def cfgMako : Config :=
  { alreadyCommented := false, useMako := true, makoFn := fun l _ => l,
    templateFn := fun l => l, addCommentRaises := fun _ => false,
    stickyEnv := { hasModpostsScope := false, requestRaises := false } }

/-- A scan cycle holding a submission whose processing raises, followed by
another submission — the second is never reached. -/
def failCycle : List Submission :=
  [{ id := "3b5ll7", outcome := ProcOutcome.raises },
   { id := "z9abcd", outcome := ProcOutcome.ok true }]

/-- How many publish attempts for submission id `idv` a scan trace holds. -/
def pub_count (trace : List ScanEvent) (idv : String) : Nat :=
  trace.countP (fun e => e == ScanEvent.published idv)

/-- A runner environment where the first reconstruction (after a
non-`LapisError` scan failure) itself raises a non-`LapisError` exception,
e.g. the Reddit login failing while the network is down. -/
def envC3 : MainEnv :=
  { configFileExists := true, configParses := true,
    constructions := [none, some ExcKind.otherError],
    scans := [ExcKind.otherError, ExcKind.otherError] }

/-- A runner environment whose constructions never raise a
non-`LapisError` exception. -/
def envC3w : MainEnv :=
  { configFileExists := true, configParses := true,
    constructions := [none],
    scans := [ExcKind.otherError, ExcKind.lapisError] }

/-! ## Theorems -/

/-- The truthy-result selection a fan-out applies to one plugin's call. -/
def fanout_select {α : Type} (truthy : α → Bool) :
    Option (Except Unit α) → Option α
  | some (Except.ok v) => if truthy v then some v else none
  | _ => none

theorem call_plugin_function_from_spec {α : Type} (truthy : α → Bool) :
    ∀ (calls : List (Option (Except Unit α))) (i : Nat),
      (call_plugin_function_from truthy i calls).1 = calls.filterMap (fanout_select truthy) ∧
      (call_plugin_function_from truthy i calls).2 =
        ((calls.enumFrom i).filter (fun ic => ic.2.isSome)).map (fun ic => ic.1) := by
  intro calls
  induction calls with
  | nil => intro i; simp [call_plugin_function_from, List.enumFrom]
  | cons c cs ih =>
    intro i
    obtain ⟨ih1, ih2⟩ := ih (i + 1)
    match c with
    | none =>
      simp [call_plugin_function_from, List.enumFrom, fanout_select, ih1, ih2]
    | some (Except.error e) =>
      simp [call_plugin_function_from, List.enumFrom, fanout_select, ih1, ih2]
    | some (Except.ok v) =>
      by_cases hv : truthy v = true <;>
        simp [call_plugin_function_from, List.enumFrom, fanout_select, ih1, ih2, hv]

theorem call_plugin_function_all_truthy {α : Type} (truthy : α → Bool)
    (calls : List (Option (Except Unit α))) (i : Nat) :
    (call_plugin_function_from truthy i calls).1.all truthy = true := by
  induction calls generalizing i with
  | nil => simp [call_plugin_function_from]
  | cons c cs ih =>
    match c with
    | none => simpa [call_plugin_function_from] using ih (i + 1)
    | some (Except.error e) => simpa [call_plugin_function_from] using ih (i + 1)
    | some (Except.ok v) =>
      by_cases hv : truthy v = true <;>
        simp [call_plugin_function_from, hv, ih (i + 1)]

/-- C4.  The registry fan-out `call_plugin_function` invokes the capability
on exactly the plugins that define a method of the requested name, in
registration order and irrespective of any exception an earlier plugin
raised (second conjunct: the invoked indices are a function of method
presence alone); and the returned list is exactly the per-plugin selection
of truthy successful results, in that same order (first conjunct), so no
falsy result ever appears in it (third conjunct). -/
theorem claim_C4_registry_fanout {α : Type} (truthy : α → Bool)
    (calls : List (Option (Except Unit α))) :
    (call_plugin_function truthy calls).1 = calls.filterMap (fanout_select truthy) ∧
    (call_plugin_function truthy calls).2 =
      ((calls.enum.filter (fun ic => ic.2.isSome)).map (fun ic => ic.1)) ∧
    (call_plugin_function truthy calls).1.all truthy = true := by
  obtain ⟨h1, h2⟩ := call_plugin_function_from_spec truthy calls 0
  exact ⟨h1, by simpa [List.enum] using h2, call_plugin_function_all_truthy truthy calls 0⟩

theorem cut_after_raise_append_of_any_eq_false (xs ys : List (Nat × Plugin × ExportRecord))
    (h : xs.any attempt_raises = false) :
    cut_after_raise (xs ++ ys) = xs ++ cut_after_raise ys := by
  induction xs with
  | nil => simp
  | cons a rest ih =>
    simp only [List.any_cons, Bool.or_eq_false_iff] at h
    simp [cut_after_raise, h.1, ih h.2]

theorem cut_after_raise_append_of_any_eq_true (xs ys : List (Nat × Plugin × ExportRecord))
    (h : xs.any attempt_raises = true) :
    cut_after_raise (xs ++ ys) = cut_after_raise xs := by
  induction xs with
  | nil => simp at h
  | cons a rest ih =>
    by_cases ha : attempt_raises a = true
    · simp [cut_after_raise, ha]
    · simp only [List.any_cons, Bool.or_eq_true_iff] at h
      rcases h with h | h
      · exact absurd h ha
      · simp [cut_after_raise, ha, ih h]

theorem cut_after_raise_of_any_eq_false (xs : List (Nat × Plugin × ExportRecord))
    (h : xs.any attempt_raises = false) :
    cut_after_raise xs = xs := by
  have := cut_after_raise_append_of_any_eq_false xs [] h
  simpa [cut_after_raise] using this

theorem run_matched_deletes_spec (rec : ExportRecord) (ms : List (Nat × Plugin)) :
    run_matched_deletes rec ms =
      ((cut_after_raise (ms.map (fun ip => (ip.1, ip.2, rec)))).map attempt_event,
        (ms.map (fun ip => (ip.1, ip.2, rec))).any attempt_raises) := by
  induction ms with
  | nil => simp [run_matched_deletes, cut_after_raise]
  | cons ip rest ih =>
    by_cases hr : ip.2.deleteRaises rec = true <;>
      simp [run_matched_deletes, cut_after_raise, attempt_raises, attempt_event, hr, ih]

theorem attempt_list_append (plugins : List Plugin) (xs ys : List ExportRecord) :
    attempt_list plugins (xs ++ ys) = attempt_list plugins xs ++ attempt_list plugins ys := by
  induction xs with
  | nil => simp [attempt_list]
  | cons rec rest ih => simp [attempt_list, ih]

theorem rollback_records_spec (plugins : List Plugin) (recs : List ExportRecord) :
    rollback_records plugins recs =
      ((cut_after_raise (attempt_list plugins recs)).map attempt_event,
        (attempt_list plugins recs).any attempt_raises) := by
  induction recs with
  | nil => simp [rollback_records, attempt_list, cut_after_raise]
  | cons rec rest ih =>
    by_cases hk : (rec.hasDeleteInfo && rec.exporter.isSome) = true
    · set ms := (matched_delete_plugins plugins rec).map (fun ip => (ip.1, ip.2, rec)) with hms
      by_cases hab : ms.any attempt_raises = true
      · have hcut := cut_after_raise_append_of_any_eq_true ms (attempt_list plugins rest) hab
        simp [rollback_records, attempt_list, hk, run_matched_deletes_spec, ← hms, hab, hcut]
      · have hab' : ms.any attempt_raises = false := by
          simpa using hab
        have hcut := cut_after_raise_append_of_any_eq_false ms (attempt_list plugins rest) hab'
        have hms' := cut_after_raise_of_any_eq_false ms hab'
        simp [rollback_records, attempt_list, hk, run_matched_deletes_spec, ← hms, hab',
          hcut, hms', ih]
    · have hk' : (rec.hasDeleteInfo && rec.exporter.isSome) = false := by
        simpa using hk
      simp [rollback_records, attempt_list, hk', ih]

theorem rollback_table_spec (plugins : List Plugin) (table : List TableEntry) :
    rollback_table plugins table =
      ((cut_after_raise (attempt_list plugins (table_records table))).map attempt_event,
        (attempt_list plugins (table_records table)).any attempt_raises) := by
  induction table with
  | nil => simp [rollback_table, table_records, attempt_list, cut_after_raise]
  | cons e rest ih =>
    set ms := attempt_list plugins e.2.1 with hms
    by_cases hab : ms.any attempt_raises = true
    · have hcut := cut_after_raise_append_of_any_eq_true ms
        (attempt_list plugins (table_records rest)) hab
      simp [rollback_table, table_records, rollback_records_spec, attempt_list_append,
        ← hms, hab, hcut]
    · have hab' : ms.any attempt_raises = false := by simpa using hab
      have hcut := cut_after_raise_append_of_any_eq_false ms
        (attempt_list plugins (table_records rest)) hab'
      have hms' := cut_after_raise_of_any_eq_false ms hab'
      simp [rollback_table, table_records, rollback_records_spec, attempt_list_append,
        ← hms, hab', hcut, hms', ih]

/-- C1 (amended).  Rollback makes its delete attempts in record order, one
attempt per (record carrying both `delete_info` and `exporter`, plugin
matching that exporter with a delete capability); but the attempts are not
independently wrapped: the trace is the would-be attempt list truncated at
the first raising attempt, so an exception at record i prevents every
later attempt, and exactly N attempts are made only when no attempt
raises. -/
theorem claim_C1_rollback_truncates_at_first_raise
    (plugins : List Plugin) (table : List TableEntry) :
    rollback plugins table =
      (cut_after_raise (attempt_list plugins (table_records table))).map attempt_event := by
  simp [rollback, rollback_table_spec]

/-- C1 counterexample.  A failed publish with an export table holding two
records, each carrying `delete_info` and an `exporter` naming a (unique)
delete-capable plugin, whose first delete raises: only one delete attempt
is made — the attempt for the second record never happens, refuting both
"exactly N delete attempts" and the per-record isolation. -/
theorem claim_C1_counterexample :
    table_records (pipeline_table [pI, pE1, pE2]) = [recE1, recE2] ∧
    (matched_delete_plugins [pI, pE1, pE2] recE1).length = 1 ∧
    (matched_delete_plugins [pI, pE1, pE2] recE2).length = 1 ∧
    recE1.hasDeleteInfo = true ∧ recE1.exporter.isSome = true ∧
    recE2.hasDeleteInfo = true ∧ recE2.exporter.isSome = true ∧
    Event.publish "l1l2" ∈ process_submission cfgFail [pI, pE1, pE2] ∧
    delete_events (process_submission cfgFail [pI, pE1, pE2]) = [Event.callDelete 1 recE1] := by
  refine ⟨by decide, ?_, ?_, by decide, by decide, by decide, by decide, by decide, by decide⟩
  · rfl
  · rfl

theorem string_foldl_append (l : List String) (a : String) :
    l.foldl (fun r s => r ++ s) a = a ++ l.foldl (fun r s => r ++ s) "" := by
  induction l generalizing a with
  | nil => simp [String.append_empty]
  | cons s rest ih =>
    simp only [List.foldl_cons]
    rw [ih (a ++ s), ih ("" ++ s), String.empty_append, String.append_assoc]

theorem string_join_nil : String.join ([] : List String) = "" := rfl

theorem string_join_cons (s : String) (l : List String) :
    String.join (s :: l) = s ++ String.join l := by
  simp only [String.join, List.foldl_cons]
  rw [string_foldl_append l ("" ++ s), String.empty_append]

theorem string_join_append (xs ys : List String) :
    String.join (xs ++ ys) = String.join xs ++ String.join ys := by
  induction xs with
  | nil => rw [List.nil_append, string_join_nil, String.empty_append]
  | cons s rest ih =>
    rw [List.cons_append, string_join_cons, string_join_cons, ih, String.append_assoc]

/-- C9.  The composed links text — `''.join(links_display_parts)` — is
exactly the in-order concatenation, over the export table's entries, of
that entry's header, its exports' `link_display` strings in fan-out order,
and its footer: entries appear in table order with no interleaving. -/
theorem claim_C9_composer_concatenation (table : List TableEntry) :
    String.join (links_display_parts table) = String.join (table.map entry_block) := by
  induction table with
  | nil => rfl
  | cons e rest ih =>
    simp only [links_display_parts, List.map_cons, string_join_append, string_join_cons,
      string_join_nil, entry_block, ih]
    simp [String.append_assoc, String.append_empty]

theorem sticky_comment_eq (env : StickyEnv) :
    sticky_comment env = Except.ok (!env.requestRaises) := by
  cases h : env.requestRaises <;> simp [sticky_comment, h]

theorem mem_pipeline_import_events {plugins : List Plugin} {e : Event}
    (h : e ∈ pipeline_import_events plugins) : ∃ i, e = Event.callImport i := by
  rcases List.mem_map.1 h with ⟨i, _, rfl⟩
  exact ⟨i, rfl⟩

theorem mem_export_loop_events {plugins : List Plugin} {e : Event} :
    ∀ (rs : List ImportRecord) (info : Option ImportRecord),
      e ∈ (export_loop plugins info rs).2.2 →
      ∃ i r, e = Event.callExport i r ∧ r ∈ rs := by
  intro rs
  induction rs with
  | nil => intro info h; simp [export_loop] at h
  | cons r rest ih =>
    intro info h
    simp only [export_loop] at h
    rcases List.mem_append.1 h with h | h
    · rcases List.mem_map.1 h with ⟨i, _, rfl⟩
      exact ⟨i, r, rfl, List.mem_cons_self r rest⟩
    · rcases ih (some r) h with ⟨i, r', he, hr⟩
      exact ⟨i, r', he, List.mem_cons_of_mem r hr⟩

theorem mem_pipeline_export_events {plugins : List Plugin} {e : Event}
    (h : e ∈ pipeline_export_events plugins) :
    ∃ i r, e = Event.callExport i r ∧
      r ∈ (import_results plugins).1.filter ImportRecord.truthy :=
  mem_export_loop_events _ _ h

theorem mem_export_loop_table {plugins : List Plugin} {entry : TableEntry} :
    ∀ (rs : List ImportRecord) (info : Option ImportRecord),
      entry ∈ (export_loop plugins info rs).1 →
      entry.2.1.any ExportRecord.truthy = true := by
  intro rs
  induction rs with
  | nil => intro info h; simp [export_loop] at h
  | cons r rest ih =>
    intro info h
    simp only [export_loop] at h
    split at h
    · rcases List.mem_cons.1 h with h | h
      · subst h
        simpa using (by assumption : (call_plugin_function ExportRecord.truthy
            (plugins.map (fun p => p.exportCall.map (fun f => f r)))).1.any
              ExportRecord.truthy = true)
      · exact ih (some r) h
    · exact ih (some r) h

theorem export_loop_info (plugins : List Plugin) :
    ∀ (rs : List ImportRecord), rs ≠ [] → ∀ (info : Option ImportRecord),
      (export_loop plugins info rs).2.1 = rs.getLast? := by
  intro rs
  induction rs with
  | nil => intro h; exact absurd rfl h
  | cons r rest ih =>
    intro _ info
    match rest, ih with
    | [], _ => simp [export_loop]
    | r' :: rest', ih =>
      have hrec := ih (by simp) (some r)
      simp only [export_loop] at hrec ⊢
      rw [hrec, List.getLast?_cons_cons]

theorem mem_publish_attempt {cfg : Config} {plugins : List Plugin}
    {table : List TableEntry} {text : String} {e : Event}
    (h : e ∈ publish_attempt cfg plugins table text) :
    e = Event.publish text ∨ (∃ b, e = Event.sticky b) ∨
      ∃ i rec, e = Event.callDelete i rec := by
  have hroll : rollback plugins table =
      (cut_after_raise (attempt_list plugins (table_records table))).map attempt_event := by
    simp [rollback, rollback_table_spec]
  unfold publish_attempt at h
  split at h
  · rcases List.mem_cons.1 h with h | h
    · exact Or.inl h
    · rw [hroll] at h
      rcases List.mem_map.1 h with ⟨a, _, rfl⟩
      exact Or.inr (Or.inr ⟨a.1, a.2.2, rfl⟩)
  · rw [sticky_comment_eq] at h
    simp only [List.mem_cons, List.mem_singleton, List.not_mem_nil, or_false] at h
    rcases h with h | h
    · exact Or.inl h
    · exact Or.inr (Or.inl ⟨_, h⟩)

theorem process_trace_cases (cfg : Config) (plugins : List Plugin) :
    process_submission cfg plugins = [] ∨
    process_submission cfg plugins = pipeline_import_events plugins ∨
    process_submission cfg plugins =
      pipeline_import_events plugins ++ pipeline_export_events plugins ∨
    ((import_results plugins).1.any ImportRecord.truthy = true ∧
      (pipeline_table plugins).any (fun _ => true) = true ∧
      ((cfg.useMako = true ∧
        process_submission cfg plugins =
          pipeline_import_events plugins ++ pipeline_export_events plugins ++
            (Event.makoRender (String.join (links_display_parts (pipeline_table plugins)))
                (pipeline_last_info plugins) ::
              publish_attempt cfg plugins (pipeline_table plugins)
                (cfg.makoFn (String.join (links_display_parts (pipeline_table plugins)))
                  (pipeline_last_info plugins)))) ∨
        (cfg.useMako = false ∧
          process_submission cfg plugins =
            pipeline_import_events plugins ++ pipeline_export_events plugins ++
              publish_attempt cfg plugins (pipeline_table plugins)
                (cfg.templateFn (String.join (links_display_parts (pipeline_table plugins))))))) := by
  by_cases h1 : cfg.alreadyCommented = true
  · exact Or.inl (by simp [process_submission, h1])
  have h1' : cfg.alreadyCommented = false := by simpa using h1
  by_cases h2 : (import_results plugins).1.any ImportRecord.truthy = true
  · by_cases h3 : (pipeline_table plugins).any (fun _ => true) = true
    · by_cases h4 : (links_display_parts (pipeline_table plugins)).isEmpty = true
      · exact Or.inr (Or.inr (Or.inl (by simp [process_submission, h1', h2, h3, h4])))
      · have h4' : (links_display_parts (pipeline_table plugins)).isEmpty = false := by
          simpa using h4
        by_cases h5 : cfg.useMako = true
        · refine Or.inr (Or.inr (Or.inr ⟨h2, h3, Or.inl ⟨h5, ?_⟩⟩))
          simp [process_submission, h1', h2, h3, h4', h5]
        · have h5' : cfg.useMako = false := by simpa using h5
          refine Or.inr (Or.inr (Or.inr ⟨h2, h3, Or.inr ⟨h5', ?_⟩⟩))
          simp [process_submission, h1', h2, h3, h4', h5']
    · have h3' : (pipeline_table plugins).any (fun _ => true) = false := by simpa using h3
      exact Or.inr (Or.inr (Or.inl (by simp [process_submission, h1', h2, h3'])))
  · have h2' : (import_results plugins).1.any ImportRecord.truthy = false := by simpa using h2
    exact Or.inr (Or.inl (by simp [process_submission, h1', h2']))

theorem mem_process_submission {cfg : Config} {plugins : List Plugin} {e : Event}
    (h : e ∈ process_submission cfg plugins) :
    (∃ i, e = Event.callImport i) ∨
    (∃ i r, e = Event.callExport i r ∧
      r ∈ (import_results plugins).1.filter ImportRecord.truthy) ∨
    (∃ l info, e = Event.makoRender l info ∧ cfg.useMako = true ∧
      info = pipeline_last_info plugins ∧
      (import_results plugins).1.any ImportRecord.truthy = true) ∨
    (∃ t, e = Event.publish t ∧ (pipeline_table plugins).any (fun _ => true) = true) ∨
    (∃ b, e = Event.sticky b) ∨
    (∃ i rec, e = Event.callDelete i rec) := by
  have himp : ∀ e' : Event, e' ∈ pipeline_import_events plugins → ∃ i, e' = Event.callImport i :=
    fun _ he => mem_pipeline_import_events he
  have hexp : ∀ e' : Event, e' ∈ pipeline_export_events plugins →
      ∃ i r, e' = Event.callExport i r ∧
        r ∈ (import_results plugins).1.filter ImportRecord.truthy :=
    fun _ he => mem_pipeline_export_events he
  rcases process_trace_cases cfg plugins with h0 | h0 | h0 | ⟨h2, h3, hsub⟩
  · rw [h0] at h; simp at h
  · rw [h0] at h; exact Or.inl (himp e h)
  · rw [h0] at h
    rcases List.mem_append.1 h with h | h
    · exact Or.inl (himp e h)
    · exact Or.inr (Or.inl (hexp e h))
  · rcases hsub with ⟨h5, htr⟩ | ⟨h5, htr⟩
    · rw [htr] at h
      rcases List.mem_append.1 h with h | h
      · rcases List.mem_append.1 h with h | h
        · exact Or.inl (himp e h)
        · exact Or.inr (Or.inl (hexp e h))
      · rcases List.mem_cons.1 h with h | h
        · exact Or.inr (Or.inr (Or.inl ⟨_, _, h, h5, rfl, h2⟩))
        · rcases mem_publish_attempt h with h | h | h
          · exact Or.inr (Or.inr (Or.inr (Or.inl ⟨_, h, h3⟩)))
          · exact Or.inr (Or.inr (Or.inr (Or.inr (Or.inl h))))
          · exact Or.inr (Or.inr (Or.inr (Or.inr (Or.inr h))))
    · rw [htr] at h
      rcases List.mem_append.1 h with h | h
      · rcases List.mem_append.1 h with h | h
        · exact Or.inl (himp e h)
        · exact Or.inr (Or.inl (hexp e h))
      · rcases mem_publish_attempt h with h | h | h
        · exact Or.inr (Or.inr (Or.inr (Or.inl ⟨_, h, h3⟩)))
        · exact Or.inr (Or.inr (Or.inr (Or.inr (Or.inl h))))
        · exact Or.inr (Or.inr (Or.inr (Or.inr (Or.inr h))))

/-- C5 (amended).  The export fan-out is gated on the truthiness of the
whole import dictionary, not on `import_urls`: every import record for
which an export capability is invoked is truthy (and, per the
counterexample, a truthy record whose `import_urls` is the empty list is
still fanned out). -/
theorem claim_C5_export_fanout_truthy_filter (cfg : Config) (plugins : List Plugin)
    (i : Nat) (r : ImportRecord)
    (h : Event.callExport i r ∈ process_submission cfg plugins) :
    r.truthy = true := by
  rcases mem_process_submission h with ⟨i', he⟩ | ⟨i', r', he, hr⟩ | ⟨l, info, he, _⟩ |
    ⟨t, he, _⟩ | ⟨b, he⟩ | ⟨i', rec, he⟩ <;> first
  | (cases he; exact (List.mem_filter.1 hr).2)
  | simp at he

/-- C5 witness for the amended theorem, at a run where an export
capability is invoked on a truthy record. -/
theorem claim_C5_witness :
    Event.callExport 1 impRec ∈ process_submission cfgOk [pI, pE1, pE2] ∧
    impRec.truthy = true :=
  ⟨by decide, claim_C5_export_fanout_truthy_filter cfgOk [pI, pE1, pE2] 1 impRec (by decide)⟩

/-- C5 counterexample.  An import record whose `import_urls` value is the
empty list is a non-empty dictionary, hence truthy, so the pipeline still
invokes `export_submission` on it — refuting "the pipeline invokes no
export capability for that record". -/
theorem claim_C5_counterexample :
    impRecNoUrls.urls = some [] ∧ impRecNoUrls.truthy = true ∧
    Event.callExport 1 impRecNoUrls ∈ process_submission cfgOk [pINoUrls, pE1] := by
  exact ⟨rfl, rfl, by decide⟩

theorem delete_events_append (a b : List Event) :
    delete_events (a ++ b) = delete_events a ++ delete_events b :=
  List.filter_append a b

theorem delete_events_import_events (plugins : List Plugin) :
    delete_events (pipeline_import_events plugins) = [] := by
  rw [delete_events, List.filter_eq_nil_iff]
  intro e he
  rcases mem_pipeline_import_events he with ⟨i, rfl⟩
  simp [Event.isDelete]

theorem delete_events_export_events (plugins : List Plugin) :
    delete_events (pipeline_export_events plugins) = [] := by
  rw [delete_events, List.filter_eq_nil_iff]
  intro e he
  rcases mem_pipeline_export_events he with ⟨i, r, rfl, _⟩
  simp [Event.isDelete]

theorem delete_events_publish_attempt {cfg : Config} {plugins : List Plugin}
    {table : List TableEntry} {text : String}
    (h : cfg.addCommentRaises text = false) :
    delete_events (publish_attempt cfg plugins table text) = [] := by
  unfold publish_attempt
  simp [h, sticky_comment_eq, delete_events, Event.isDelete]

/-- C6.  `sticky_comment` never raises: every run returns `ok` (true when
the distinguish request went through, false — the swallowed failure —
otherwise).  Consequently, when posting the reply does not raise, a run of
`process_submission` performs no rollback delete: a successful publish
never falls into the publish-failure branch. -/
theorem claim_C6_sticky_never_raises (env : StickyEnv) (cfg : Config)
    (plugins : List Plugin) (h : cfg.addCommentRaises = fun _ => false) :
    sticky_comment env = Except.ok (!env.requestRaises) ∧
    delete_events (process_submission cfg plugins) = [] := by
  refine ⟨sticky_comment_eq env, ?_⟩
  have hfa : ∀ t, cfg.addCommentRaises t = false := fun t => congrFun h t
  rcases process_trace_cases cfg plugins with h0 | h0 | h0 | ⟨h2, h3, hsub⟩
  · rw [h0]; rfl
  · rw [h0]; exact delete_events_import_events plugins
  · rw [h0, delete_events_append, delete_events_import_events, delete_events_export_events]
    rfl
  · rcases hsub with ⟨h5, htr⟩ | ⟨h5, htr⟩
    · rw [htr, delete_events_append, delete_events_append,
        delete_events_import_events, delete_events_export_events]
      simp [delete_events, Event.isDelete]
      have := @delete_events_publish_attempt cfg plugins (pipeline_table plugins)
        (cfg.makoFn (String.join (links_display_parts (pipeline_table plugins)))
          (pipeline_last_info plugins))
        (hfa (cfg.makoFn (String.join (links_display_parts (pipeline_table plugins)))
          (pipeline_last_info plugins)))
      simpa [delete_events] using this
    · rw [htr, delete_events_append, delete_events_append,
        delete_events_import_events, delete_events_export_events,
        delete_events_publish_attempt (hfa _)]
      rfl

/-- C6 witness: a configuration whose publish never raises; sticky is total
and the run has no rollback delete. -/
theorem claim_C6_witness :
    (cfgOk.addCommentRaises = fun _ => false) ∧
    sticky_comment cfgOk.stickyEnv = Except.ok (!cfgOk.stickyEnv.requestRaises) ∧
    delete_events (process_submission cfgOk [pI, pE1, pE2]) = [] :=
  ⟨rfl, claim_C6_sticky_never_raises cfgOk.stickyEnv cfgOk [pI, pE1, pE2] rfl⟩

/-- C7.  A publish attempt occurs only when the export table is non-empty,
and every table entry holds at least one truthy export result: a reply is
attempted only if some import produced at least one non-empty export. -/
theorem claim_C7_publish_requires_nonempty_table (cfg : Config) (plugins : List Plugin)
    (t : String) (h : Event.publish t ∈ process_submission cfg plugins) :
    pipeline_table plugins ≠ [] ∧
    ∀ entry ∈ pipeline_table plugins, entry.2.1.any ExportRecord.truthy = true := by
  constructor
  · rcases mem_process_submission h with ⟨i, he⟩ | ⟨i, r, he, _⟩ | ⟨l, info, he, _⟩ |
      ⟨t', he, h3⟩ | ⟨b, he⟩ | ⟨i, rec, he⟩ <;> first
    | (intro hemp; rw [hemp] at h3; simp at h3)
    | simp at he
  · intro entry hent
    simp only [pipeline_table] at hent
    exact mem_export_loop_table _ _ hent

/-- C7 witness: a run that publishes, with its non-empty table. -/
theorem claim_C7_witness :
    Event.publish "l1l2" ∈ process_submission cfgOk [pI, pE1, pE2] ∧
    pipeline_table [pI, pE1, pE2] ≠ [] :=
  ⟨by decide,
    (claim_C7_publish_requires_nonempty_table cfgOk [pI, pE1, pE2] "l1l2" (by decide)).1⟩

/-- C10.  When the mako branch renders, the `import_info` argument passed
to the template is the final value of the fan-out loop variable: the last
truthy import record iterated — not necessarily one backing a table entry
(the witness shows a record with no exports, absent from the table, being
passed). -/
theorem claim_C10_mako_info_is_last_truthy (cfg : Config) (plugins : List Plugin)
    (l : String) (info : Option ImportRecord)
    (h : Event.makoRender l info ∈ process_submission cfg plugins) :
    info = ((import_results plugins).1.filter ImportRecord.truthy).getLast? := by
  rcases mem_process_submission h with ⟨i, he⟩ | ⟨i, r, he, _⟩ |
    ⟨l', info', he, h5, hinfo, h2⟩ | ⟨t', he, _⟩ | ⟨b, he⟩ | ⟨i, rec, he⟩
  · simp at he
  · simp at he
  · obtain ⟨he1, he2⟩ : l = l' ∧ info = info' := by simpa using he
    rcases List.any_eq_true.1 h2 with ⟨r, hr, htr⟩
    have hne : (import_results plugins).1.filter ImportRecord.truthy ≠ [] :=
      List.ne_nil_of_mem (List.mem_filter.2 ⟨hr, htr⟩)
    rw [he2, hinfo, pipeline_last_info, export_loop_info plugins _ hne]
  · simp at he
  · simp at he
  · simp at he

/-- C10 witness: two import plugins; the second record's exports are all
falsy, so it never enters the table, yet it is the `import_info` the mako
render receives. -/
theorem claim_C10_witness :
    Event.makoRender "l1" (some impRecB) ∈ process_submission cfgMako [pI, pIB, pESel] ∧
    some impRecB =
      ((import_results [pI, pIB, pESel]).1.filter ImportRecord.truthy).getLast? ∧
    pipeline_table [pI, pIB, pESel] =
      [({ header := none, footer := none }, [recE1], impRec)] :=
  ⟨by decide,
    claim_C10_mako_info_is_last_truthy cfgMako [pI, pIB, pESel] "l1" (some impRecB) (by decide),
    by decide⟩

/-- C2.  The code bug at `lapis.py` line 359: when processing a submission
raises, the handler formats `'Ran into error on submission %d' %
submission.id`, but ids are strings, so the `%d` conversion raises
`TypeError`; the new exception escapes the scan loop (result `aborted`),
the id is NOT appended to `done`, and the next submission of the cycle is
never reached — contradicting "caught and logged, id appended, loop
continues". -/
theorem claim_C2_handler_format_raises :
    scan_submissions [] [] [failCycle] =
      ScanResult.aborted [] [ScanEvent.processed "3b5ll7"] ∧
    percent_d_format "Ran into error on submission " (PyVal.pyStr "3b5ll7") =
      Except.error () :=
  ⟨by decide, rfl⟩

theorem main_loop_no_other (scans : List ExcKind) :
    ∀ (cs : List (Option ExcKind)), (∀ c ∈ cs, c ≠ some ExcKind.otherError) →
      main_loop cs scans ≠ MainResult.terminatedUncaught ExcKind.otherError := by
  induction scans with
  | nil => intro cs h; simp [main_loop]
  | cons s rest ih =>
    intro cs h
    cases s with
    | lapisError => simp [main_loop]
    | otherError =>
      cases cs with
      | nil => simp [main_loop]
      | cons c cs' =>
        cases c with
        | some k =>
          cases k with
          | lapisError => simp [main_loop]
          | otherError =>
            exact absurd rfl (h (some ExcKind.otherError) (List.mem_cons_self _ _))
        | none =>
          have := ih cs' (fun c hc => h c (List.mem_cons_of_mem _ hc))
          simpa [main_loop] using this

/-- C3 (amended).  The runner catches non-`LapisError` exceptions escaping
a scan cycle and retries after cooldown and full reconstruction, and a
`LapisError` (configuration) terminates it; but the reconstruction runs
inside the `except` handler, so the guarantee only holds when no
construction raises a non-`LapisError` exception — under that hypothesis
(and a parse-clean config file) no non-configuration exception terminates
the process. -/
theorem claim_C3_runner_retries (env : MainEnv)
    (hparse : env.configParses = true)
    (hcons : ∀ c ∈ env.constructions, c ≠ some ExcKind.otherError) :
    main env ≠ MainResult.terminatedUncaught ExcKind.otherError := by
  unfold main
  by_cases hfile : env.configFileExists = true
  · rw [hfile, hparse]
    simp only [Bool.not_true, Bool.false_eq_true, if_false]
    cases hc : env.constructions with
    | nil => simp
    | cons c cs =>
      cases c with
      | some k =>
        cases k with
        | lapisError => simp
        | otherError =>
          exact absurd rfl (hcons (some ExcKind.otherError) (hc ▸ List.mem_cons_self _ _))
      | none =>
        exact main_loop_no_other env.scans cs
          (fun c' hc' => hcons c' (hc ▸ List.mem_cons_of_mem _ hc'))
  · have : env.configFileExists = false := by simpa using hfile
    rw [this]
    simp

/-- C3 counterexample.  Config file present and parsing, first
construction fine; a scan cycle fails with a non-`LapisError` exception
and the reconstruction inside the handler raises a non-`LapisError`
exception (network down during login): the process terminates on a
non-configuration exception, refuting "no non-configuration exception can
ever terminate the process". -/
theorem claim_C3_counterexample :
    envC3.configFileExists = true ∧ envC3.configParses = true ∧
    main envC3 = MainResult.terminatedUncaught ExcKind.otherError :=
  ⟨rfl, rfl, rfl⟩

/-- C3 witness: an environment whose constructions never raise a
non-`LapisError`; the amended theorem applies. -/
theorem claim_C3_witness :
    envC3w.configParses = true ∧ envC3w.constructions = [none] ∧
    main envC3w ≠ MainResult.terminatedUncaught ExcKind.otherError :=
  ⟨rfl, rfl, claim_C3_runner_retries envC3w rfl (by decide)⟩

theorem scan_cycle_publish_inv (idv : String) :
    ∀ (subs : List Submission) (done : List String) (trace : List ScanEvent),
      pub_count trace idv ≤ 1 → (1 ≤ pub_count trace idv → idv ∈ done) →
      pub_count (scan_cycle done trace subs).traceOf idv ≤ 1 ∧
        (1 ≤ pub_count (scan_cycle done trace subs).traceOf idv →
          idv ∈ (scan_cycle done trace subs).doneOf) := by
  intro subs
  induction subs with
  | nil =>
    intro done trace h1 h2
    exact ⟨h1, h2⟩
  | cons sub rest ih =>
    intro done trace h1 h2
    by_cases hmem : sub.id ∈ done
    · have := ih (done ++ [sub.id]) trace h1 (fun hc => List.mem_append_left _ (h2 hc))
      simpa [scan_cycle, hmem] using this
    · cases ho : sub.outcome with
      | ok pub =>
        have hstep :
            pub_count (trace ++ ScanEvent.processed sub.id ::
              (if pub then [ScanEvent.published sub.id] else [])) idv ≤ 1 ∧
            (1 ≤ pub_count (trace ++ ScanEvent.processed sub.id ::
              (if pub then [ScanEvent.published sub.id] else [])) idv →
              idv ∈ done ++ [sub.id]) := by
          by_cases hid : sub.id = idv
          · subst hid
            have h0 : pub_count trace sub.id = 0 := by
              rcases Nat.eq_zero_or_pos (pub_count trace sub.id) with h | h
              · exact h
              · exact absurd (h2 h) hmem
            have h0' : List.countP (fun e => e == ScanEvent.published sub.id) trace = 0 := h0
            cases pub <;>
              simp [pub_count, List.countP_append, List.countP_cons, h0']
          · have hne : (ScanEvent.published sub.id == ScanEvent.published idv) = false := by
              simp [hid]
            have heq : pub_count (trace ++ ScanEvent.processed sub.id ::
                (if pub then [ScanEvent.published sub.id] else [])) idv =
                pub_count trace idv := by
              cases pub <;> simp [pub_count, List.countP_append, List.countP_cons, hne]
            rw [heq]
            exact ⟨h1, fun hc => List.mem_append_left _ (h2 hc)⟩
        have := ih (done ++ [sub.id]) _ hstep.1 hstep.2
        simpa [scan_cycle, hmem, ho] using this
      | raises =>
        have htr : pub_count (trace ++ [ScanEvent.processed sub.id]) idv =
            pub_count trace idv := by
          simp [pub_count, List.countP_append, List.countP_cons]
        have hres : scan_cycle done trace (sub :: rest) =
            ScanResult.aborted done (trace ++ [ScanEvent.processed sub.id]) := by
          simp [scan_cycle, hmem, ho, percent_d_format]
        rw [hres]
        exact ⟨by simpa [ScanResult.traceOf, htr] using h1,
          by simpa [ScanResult.traceOf, ScanResult.doneOf, htr] using h2⟩

theorem scan_submissions_publish_inv (idv : String) :
    ∀ (cycles : List (List Submission)) (done : List String) (trace : List ScanEvent),
      pub_count trace idv ≤ 1 → (1 ≤ pub_count trace idv → idv ∈ done) →
      pub_count (scan_submissions done trace cycles).traceOf idv ≤ 1 := by
  intro cycles
  induction cycles with
  | nil => intro done trace h1 h2; exact h1
  | cons cycle cycles ih =>
    intro done trace h1 h2
    have hc := scan_cycle_publish_inv idv cycle done trace h1 h2
    cases hr : scan_cycle done trace cycle with
    | aborted d t =>
      rw [hr] at hc
      have hs : scan_submissions done trace (cycle :: cycles) = ScanResult.aborted d t := by
        simp [scan_submissions, hr]
      rw [hs]
      exact hc.1
    | finished d t =>
      rw [hr] at hc
      have hs : scan_submissions done trace (cycle :: cycles) = scan_submissions d t cycles := by
        simp [scan_submissions, hr]
      rw [hs]
      exact ih d t hc.1 hc.2

/-- C8.  Within one scan-loop lifetime (one `scan_submissions` call, one
`done` list), at most one publish attempt is made per submission id, over
any sequence of scan cycles in which the id appears any number of times
and whatever each processing outcome is. -/
theorem claim_C8_at_most_one_publish (cycles : List (List Submission)) (idv : String) :
    pub_count (scan_submissions [] [] cycles).traceOf idv ≤ 1 :=
  scan_submissions_publish_inv idv cycles [] []
    (by simp [pub_count]) (by simp [pub_count])

end LapisMirror
